import Mathlib

/-!
Verification development for the FlowForge Metadata Resolution & Decision
Pipeline. The definitions below are a shallow embedding of the TypeScript
source: `app/main/transformRules.ts` (decision engine), `app/main/workflow.ts`
(metadata fetch, coverage gate via `workflow:run`, pipeline orchestrator) and
`app/main/ipc/workflowHandlers.ts`. JavaScript scalars are modelled by
`JValue`, JavaScript objects and `Map`s by insertion-ordered association
lists with `jsGet`/`jsSet`, and string primitives by the corresponding Lean
`String` operations (ASCII-faithful).
-/

namespace FlowForge

/-- A JavaScript scalar value as it appears in a parsed data row:
string, number, boolean or null. -/
inductive JValue where
  | vStr (s : String)
  | vNum (n : Int)
  | vBool (b : Bool)
  | vNull
  deriving DecidableEq, Repr

/-- JavaScript truthiness for a `JValue`. -/
def jsTruthy : JValue → Bool
  | .vStr s => s ≠ ""
  | .vNum n => n ≠ 0
  | .vBool b => b
  | .vNull => false

/-- JavaScript coercion `String(v)` for a `JValue`. -/
def jsToString : JValue → String
  | .vStr s => s
  | .vNum n => toString n
  | .vBool b => if b then "true" else "false"
  | .vNull => "null"

/-- An insertion-ordered JavaScript object or `Map`: a list of key/value
pairs with (in well-formed objects) pairwise-distinct keys. -/
abbrev Obj (β : Type) := List (String × β)

/-- Property read `o[k]`: the value at the first matching key, if any. -/
def jsGet {β : Type} (k : String) : Obj β → Option β
  | [] => none
  | (k₂, v) :: rest => if k₂ = k then some v else jsGet k rest

/-- Property write `o[k] = v` (also `Map.set`): overwrite in place when the
key exists (keeping its position), otherwise append. -/
def jsSet {β : Type} (k : String) (v : β) : Obj β → Obj β
  | [] => [(k, v)]
  | (k₂, w) :: rest => if k₂ = k then (k₂, v) :: rest else (k₂, w) :: jsSet k v rest

/-- Boolean test that one character list is a prefix of another. -/
def startsWithChars : List Char → List Char → Bool
  | [], _ => true
  | _ :: _, [] => false
  | a :: as, b :: bs => a == b && startsWithChars as bs

/-- Boolean test that the first character list occurs contiguously inside
the second. -/
def hasInfixChars (needle : List Char) : List Char → Bool
  | [] => needle.isEmpty
  | b :: bs => startsWithChars needle (b :: bs) || hasInfixChars needle bs

/-- JavaScript `haystack.includes(needle)`: substring containment. -/
def strContains (haystack needle : String) : Bool :=
  hasInfixChars needle.toList haystack.toList

/-- Drop leading and trailing whitespace from a character list. -/
def charsTrim (l : List Char) : List Char :=
  ((l.dropWhile Char.isWhitespace).reverse.dropWhile Char.isWhitespace).reverse

/-- Split a character list at every occurrence of a separator character
(JavaScript `s.split(sep)`: empty pieces are kept). -/
def splitOnChar (sep : Char) : List Char → List (List Char)
  | [] => [[]]
  | c :: rest =>
    match splitOnChar sep rest with
    | [] => [[c]]
    | h :: t => if c == sep then [] :: h :: t else (c :: h) :: t

/-- Split a character list at every character satisfying a predicate. -/
def splitAtPred (p : Char → Bool) : List Char → List (List Char)
  | [] => [[]]
  | c :: rest =>
    match splitAtPred p rest with
    | [] => [[c]]
    | h :: t => if p c then [] :: h :: t else (c :: h) :: t

/-- JavaScript `s.toLowerCase()` (ASCII-faithful). -/
def sLower (s : String) : String :=
  (s.toList.map Char.toLower).asString

/-- JavaScript `s.trim()`. -/
def sTrim (s : String) : String :=
  (charsTrim s.toList).asString

/-- JavaScript `s.split(sep)` for a one-character separator. -/
def sSplitOn (sep : Char) (s : String) : List String :=
  (splitOnChar sep s.toList).map List.asString

/-- JavaScript `s.split(/\s+/)`-style split at whitespace characters; the
callers filter out the empty pieces. -/
def sSplitWs (s : String) : List String :=
  (splitAtPred Char.isWhitespace s.toList).map List.asString

/-- Truthiness of an optional string (`undefined` and `""` are falsy). -/
def jsTruthyOptStr : Option String → Bool
  | some s => s ≠ ""
  | none => false

/-- JavaScript `a || dflt` on an optional string. -/
def jsOrStr (o : Option String) (dflt : String) : String :=
  match o with
  | some s => if s ≠ "" then s else dflt
  | none => dflt

/-- A data row: an ordered field-name → scalar mapping (`DataRow`). -/
abbrev DataRow := Obj JValue

/-- Field access `String(row[key] || '')` as used by the decision engine. -/
def getFieldStr (row : DataRow) (key : String) : String :=
  match jsGet key row with
  | some v => if jsTruthy v then jsToString v else ""
  | none => ""

/-- Resolved user metadata (`UserMetadata` / `UserMetadataFull`). -/
structure UserMetadata where
  user_id : String
  email : String
  emails : Option (List String) := none
  first_name : Option String := none
  last_name : Option String := none
  deriving DecidableEq, Repr

/-! ### Decision rules (`app/main/transformRules.ts`) -/

/-- `normalizeEmail`: lower-case then trim. -/
def normalizeEmail (email : String) : String :=
  sTrim (sLower email)

/-- `extractNameParts`: tokens of the email local part, splitting
independently on each of the separators `.`, `_`, `-`, `+`; each token is
trimmed, empty tokens are dropped, and the result is an insertion-ordered
set (duplicates skipped). -/
def extractNameParts (email : String) : List String :=
  if ¬ strContains email "@" then []
  else
    let localPart := sLower ((sSplitOn '@' email).headD "")
    ['.', '_', '-', '+'].foldl
      (fun parts sep =>
        (sSplitOn sep localPart).foldl
          (fun ps part =>
            if sTrim part ≠ "" then
              (if ps.contains (sTrim part) then ps else ps ++ [sTrim part])
            else ps)
          parts)
      []

/-- Argument to `checkEmailMatchesMetadata`: `userMeta.emails ?? userMeta.email`
is either a string list or a single string. -/
inductive EmailsArg where
  | list (l : List String)
  | single (s : String)
  deriving DecidableEq, Repr

/-- JavaScript truthiness of the `primaryEmailOrList` argument: an array is
always truthy, a string is truthy iff non-empty. -/
def emailsArgTruthy : EmailsArg → Bool
  | .list _ => true
  | .single s => s ≠ ""

/-- `checkEmailMatchesMetadata`: exact normalized match against the list
(skipping falsy entries) or against the single string. -/
def checkEmailMatchesMetadata (orderEmail : String) (arg : EmailsArg) : Bool :=
  if orderEmail = "" then false
  else if ¬ emailsArgTruthy arg then false
  else
    let normalizedOrder := normalizeEmail orderEmail
    match arg with
    | .list l => l.any (fun e => e ≠ "" && normalizeEmail e == normalizedOrder)
    | .single s => normalizeEmail s == normalizedOrder

/-- Whitespace-run split of a name, dropping empty words
(`nameLower.split(/\s+/).filter(p => p.length > 0)`). -/
def wordsOf (s : String) : List String :=
  (sSplitWs s).filter (fun p => p.length > 0)

/-- The shared token test: the name equals some token, or is a substring of
some token (`emailParts.has(n) || [...emailParts].some(p => p.includes(n))`). -/
def nameHit (tokens : List String) (n : String) : Bool :=
  tokens.contains n || tokens.any (fun t => strContains t n)

/-- The `checkNameParts` helper inside `checkEmailContainsName`: direct hit
on the lower-cased trimmed name, else — only when the name contains a space
character — a hit on some whitespace-split word of the name. -/
def checkNameParts (tokens : List String) (name : String) : Bool :=
  let n := sTrim (sLower name)
  if nameHit tokens n then true
  else if strContains n " " then
    (wordsOf n).any (fun w => nameHit tokens w)
  else false

/-- `checkEmailContainsName` (the `transformRules.ts` version used by the
pipeline): tries the first name then the last name, skipping falsy names. -/
def checkEmailContainsName (orderEmail : String) (firstName lastName : Option String) : Bool :=
  if orderEmail = "" then false
  else
    let tokens := extractNameParts orderEmail
    (jsTruthyOptStr firstName && checkNameParts tokens (firstName.getD "")) ||
      (jsTruthyOptStr lastName && checkNameParts tokens (lastName.getD ""))

/-- `checkCompanyDomain`: some configured keyword is a case-insensitive
substring of the email's domain part. -/
def checkCompanyDomain (orderEmail : String) (domainKeywords : List String) : Bool :=
  if orderEmail = "" || ¬ strContains orderEmail "@" then false
  else if domainKeywords.isEmpty then false
  else
    let domain := sLower ((sSplitOn '@' orderEmail).getD 1 "")
    domainKeywords.any (fun kw => strContains domain (sLower kw))

/-- `checkSocialGood`: the trimmed lower-cased product type is exactly
`"social good"`. -/
def checkSocialGood (productType : String) : Bool :=
  if productType = "" then false
  else sLower (sTrim productType) == "social good"

/-- `userMeta.emails ?? userMeta.email`. -/
def emailsOrEmail (m : UserMetadata) : EmailsArg :=
  match m.emails with
  | some l => .list l
  | none => .single m.email

/-- The row's email field, `String(row['Email Address'] || '')`. -/
def rowEmail (row : DataRow) : String := getFieldStr row "Email Address"

/-- The row's subject identifier, `String(row['User Name'] || '')`. -/
def rowUserName (row : DataRow) : String := getFieldStr row "User Name"

/-- The row's product type, `String(row['Product Type'] || '')`. -/
def rowProductType (row : DataRow) : String := getFieldStr row "Product Type"

/-- Rule 1 guard: metadata present and `checkEmailMatchesMetadata` fires. -/
def rule1Fires (row : DataRow) (metadata : String → Option UserMetadata) : Bool :=
  match metadata (rowUserName row) with
  | some m => checkEmailMatchesMetadata (rowEmail row) (emailsOrEmail m)
  | none => false

/-- Rule 2 guard: metadata present and `checkEmailContainsName` fires. -/
def rule2Fires (row : DataRow) (metadata : String → Option UserMetadata) : Bool :=
  match metadata (rowUserName row) with
  | some m => checkEmailContainsName (rowEmail row) m.first_name m.last_name
  | none => false

/-- Rule 3 guard: `domainKeywords && domainKeywords.length > 0 &&
checkCompanyDomain(...)`. -/
def rule3Fires (row : DataRow) (domainKeywords : Option (List String)) : Bool :=
  match domainKeywords with
  | some kws => decide (0 < kws.length) && checkCompanyDomain (rowEmail row) kws
  | none => false

/-- Rule 4 guard: `checkSocialGood(productType)`. -/
def rule4Fires (row : DataRow) : Bool :=
  checkSocialGood (rowProductType row)

/-- The rule-2 reason payload: trimmed concatenation
of first and last name with a single separating space. -/
def fullNameOf (mo : Option UserMetadata) : String :=
  match mo with
  | some m => ((m.first_name.getD "") ++ " " ++ (m.last_name.getD "")).trim
  | none => ""

/-- `companyName || 'company'`. -/
def companyDisplay : Option String → String
  | some s => if s ≠ "" then s else "company"
  | none => "company"

/-- The decision/reason pair computed for one row by the if/else chain in
`applyTransformRules` (strict priority with short-circuit). -/
def decideRow (row : DataRow) (metadata : String → Option UserMetadata)
    (domainKeywords : Option (List String)) (companyName : Option String) : String × String :=
  if rule1Fires row metadata then ("Y", "Email matches user metadata")
  else if rule2Fires row metadata then
    ("Y", "Email contains user name (" ++ fullNameOf (metadata (rowUserName row)) ++ ")")
  else if rule3Fires row domainKeywords then
    ("Y", "Email is under " ++ companyDisplay companyName ++ " domain")
  else if rule4Fires row then ("Y", "Product type is Social Good")
  else ("N", "No verification rule matched")

/-- Record assembly in `applyTransformRules`: start from
`{Decision, Reason}` and copy every original field with `outputRow[key] = value`. -/
def buildOutput (row : DataRow) (decision reason : String) : DataRow :=
  row.foldl (fun acc kv => jsSet kv.1 kv.2 acc)
    [("Decision", JValue.vStr decision), ("Reason", JValue.vStr reason)]

/-- `applyTransformRules` over a row list. A missing metadata map is
modelled as the constant-`none` lookup. -/
def applyTransformRules (rows : List DataRow) (metadata : String → Option UserMetadata)
    (domainKeywords : Option (List String)) (companyName : Option String) : List DataRow :=
  rows.map (fun row =>
    let dr := decideRow row metadata domainKeywords companyName
    buildOutput row dr.1 dr.2)

/-! ### Metadata fetching (`app/main/workflow.ts`) -/

/-- One entry of the `Metadata` array in an API response. -/
structure MetadataEntry where
  Name : String
  StoredValue : String
  deriving DecidableEq, Repr

/-- The parsed JSON body of a `SiteUser/GetUser` response
(`ApiUserMetadata`); optional fields may be absent. -/
structure ApiUserMetadata where
  IDGUID : String := ""
  FirstName : Option String := none
  LastName : Option String := none
  UserName : Option String := none
  ExternalCode : Option String := none
  Email : Option String := none
  Metadata : Option (List MetadataEntry) := none
  deriving DecidableEq, Repr

/-- The outcome of one metadata HTTP request: a transport-level failure
(DNS, connect, timeout — anything that makes the request throw), or a
response with a status, a `content-type` header value and the result of
`JSON.parse` on the body (`none` when parsing throws or yields null). -/
inductive FetchResponse where
  | transportError
  | response (status : Nat) (contentType : String) (parsed : Option ApiUserMetadata)
  deriving DecidableEq, Repr

/-- The empty-metadata sentinel `{ user_id: idguid, email: '' }` returned
for every unusable response. -/
def emptySubjectMetadata (idguid : String) : UserMetadata :=
  { user_id := idguid, email := "" }

/-- First-seen-order de-duplication, as in
`Array.from(new Set(collectedEmails))`. -/
def jsDedupAux (seen : List String) : List String → List String
  | [] => []
  | x :: rest =>
    if seen.contains x then jsDedupAux seen rest
    else x :: jsDedupAux (seen ++ [x]) rest

/-- JavaScript `Array.from(new Set(l))`. -/
def jsDedup (l : List String) : List String :=
  jsDedupAux [] l

/-- The emails collected from a parsed body: the trimmed primary `Email`
when truthy, then every `Metadata` entry whose name contains `email`
(case-insensitively) and whose trimmed value is non-empty. -/
def collectedEmailsOf (d : ApiUserMetadata) : List String :=
  (match d.Email with
    | some e => if e ≠ "" && sTrim e ≠ "" then [sTrim e] else []
    | none => []) ++
  (match d.Metadata with
    | some entries =>
      entries.foldl
        (fun acc meta =>
          if meta.Name ≠ "" && meta.StoredValue ≠ "" &&
              strContains (sLower meta.Name) "email" then
            (if sTrim meta.StoredValue ≠ "" then acc ++ [sTrim meta.StoredValue] else acc)
          else acc)
        []
    | none => [])

/-- `fetchUserMetadata`: total per-subject fetch interpretation. Every
failure path (transport throw, non-2xx status, non-JSON content type,
unparsable body, missing `IDGUID`) is absorbed into the empty-metadata
sentinel; nothing is ever thrown. -/
def fetchUserMetadataModel (idguid : String) (resp : FetchResponse) : UserMetadata :=
  match resp with
  | .transportError => emptySubjectMetadata idguid
  | .response status contentType parsed =>
    if status < 200 ∨ 300 ≤ status then emptySubjectMetadata idguid
    else if ¬ strContains (sLower contentType) "application/json" then
      emptySubjectMetadata idguid
    else
      match parsed with
      | none => emptySubjectMetadata idguid
      | some d =>
        if d.IDGUID = "" then emptySubjectMetadata idguid
        else
          let collectedEmails := collectedEmailsOf d
          { user_id := jsOrStr d.ExternalCode (jsOrStr d.UserName idguid),
            email := collectedEmails.headD "",
            emails := if 0 < collectedEmails.length then some (jsDedup collectedEmails) else none,
            first_name := if jsTruthyOptStr d.FirstName then d.FirstName else none,
            last_name := if jsTruthyOptStr d.LastName then d.LastName else none }

/-- The rejection conditions of step 4 of the resolver specification: a
transport failure, a status outside `[200, 300)`, a `content-type` not
containing `application/json`, an unparsable (or null) body, or a body
whose identifier field is not truthy. -/
def rejectedResponse : FetchResponse → Prop
  | .transportError => True
  | .response status contentType parsed =>
    status < 200 ∨ 300 ≤ status ∨
      strContains (sLower contentType) "application/json" = false ∨
      (match parsed with
        | none => True
        | some d => d.IDGUID = "")

/-- The batch partition of `fetchAllMetadata`:
`for (let i = 0; i < idguids.length; i += 10) batches.push(idguids.slice(i, i + 10))`. -/
def chunk10 (l : List String) : List (List String) :=
  if h : l = [] then []
  else l.take 10 :: chunk10 (l.drop 10)
termination_by l.length
decreasing_by
  simp only [List.length_drop]
  have := List.length_pos.mpr h
  omega

/-- `fetchAllMetadata`: batches are processed strictly in sequence; each
result is recorded under the caller-supplied identifier (`batch[idx]`),
skipped when that identifier is falsy. The network is abstracted by
`respOf`, the per-identifier response oracle. -/
def fetchAllMetadataModel (idguids : List String) (respOf : String → FetchResponse) :
    Obj UserMetadata :=
  (chunk10 idguids).foldl
    (fun acc batch =>
      let results := batch.map (fun idguid => fetchUserMetadataModel idguid (respOf idguid))
      (batch.zip results).foldl
        (fun m p => if p.1 ≠ "" then jsSet p.1 p.2 m else m)
        acc)
    []

/-- The cumulative progress events: after each batch, the callback receives
`(completed, total)` with `completed` increased by the batch length. -/
def progressAux (total : Nat) : Nat → List (List String) → List (Nat × Nat)
  | _, [] => []
  | completed, batch :: rest =>
    (completed + batch.length, total) :: progressAux total (completed + batch.length) rest

/-- The sequence of `(current, total)` arguments passed to the progress
callback of `fetchAllMetadata`, one invocation per batch. -/
def progressEvents (idguids : List String) : List (Nat × Nat) :=
  progressAux idguids.length 0 (chunk10 idguids)

/-- `extractIdGuids`: the insertion-ordered set of trimmed, non-empty
stringified values of the designated column. -/
def extractIdGuids (data : List DataRow) (columnName : String) : List String :=
  data.foldl
    (fun acc row =>
      match jsGet columnName row with
      | some v =>
        if jsTruthy v then
          (if sTrim (jsToString v) ≠ "" then
            (if acc.contains (sTrim (jsToString v)) then acc
             else acc ++ [sTrim (jsToString v)])
           else acc)
        else acc
      | none => acc)
    []

/-! ### Pipeline orchestrator and coverage gate
(`app/main/workflow.ts`, `app/main/ipc/workflowHandlers.ts`) -/

/-- `escapeCsvValue`: null and undefined become the empty field; a value
containing a comma, quote or newline is wrapped in quotes with inner
quotes doubled. -/
def escapeCsvField (v : Option JValue) : String :=
  match v with
  | none => ""
  | some .vNull => ""
  | some w =>
    let str := jsToString w
    if strContains str "," || strContains str "\"" || strContains str "\n" then
      "\"" ++ (str.toList.foldl
        (fun acc c => if c == '\"' then acc ++ "\"\"" else acc.push c) "") ++ "\""
    else str

/-- JavaScript `Array.prototype.join(sep)`. -/
def joinWith (sep : String) : List String → String
  | [] => ""
  | [x] => x
  | x :: y :: rest => x ++ sep ++ joinWith sep (y :: rest)

/-- The CSV header set: all keys of all rows, first-seen order. -/
def csvHeaders (data : List DataRow) : List String :=
  data.foldl
    (fun acc row =>
      row.foldl (fun a kv => if a.contains kv.1 then a else a ++ [kv.1]) acc)
    []

/-- The exact text written by `writeCsv` (header line, one line per row,
trailing newline). -/
def writeCsvContent (data : List DataRow) : String :=
  let headers := csvHeaders data
  let lines := joinWith "," (headers.map (fun h => escapeCsvField (some (JValue.vStr h)))) ::
    data.map (fun row => joinWith "," (headers.map (fun h => escapeCsvField (jsGet h row))))
  joinWith "\n" lines ++ "\n"

/-- `validateRows`: the validation stage stub, returning zero errors. -/
def validateRows (_rows : List DataRow) : List (Nat × String × String) :=
  []

/-- The output artifact format of a pipeline run. -/
inductive OutputFormat where
  | csv
  | xlsx
  deriving DecidableEq, Repr

/-- The observable result of `runPipeline`: flag, counts, stage timings,
and the output artifact content with its hash. -/
structure RunResultM where
  ok : Bool
  countsIn : Nat
  countsOut : Nat
  countsErrors : Nat
  timings : List Int
  artifactContent : String
  artifactHash : String
  deriving Repr

/-- `runPipeline` over already-parsed source rows. The stages run strictly
in sequence: Normalize and Enrich are identity passes, Transform applies
`applyTransformRules` with the settings, Validate runs the stub validator,
Sink renders the artifact (the XLSX encoder `xenc` and the SHA-256 function
`sha` are opaque deterministic collaborators) — the writers throw on an
empty dataset, modelled as `Except.error`. Wall-clock stage durations are
an environment input (`stageDurations`) recorded in the result. -/
def runPipelineModel (sourceData : List DataRow) (metadata : String → Option UserMetadata)
    (emailDomainKeywords : List String) (companyName : String) (fmt : OutputFormat)
    (xenc : List DataRow → String) (sha : String → String) (stageDurations : List Int) :
    Except String RunResultM :=
  let normalizedData := sourceData
  let enrichedData := normalizedData
  let transformedData :=
    applyTransformRules enrichedData metadata (some emailDomainKeywords) (some companyName)
  let validationErrors := validateRows transformedData
  if transformedData.isEmpty then
    Except.error (match fmt with
      | .csv => "Cannot write empty dataset to CSV"
      | .xlsx => "Cannot write empty dataset to XLSX")
  else
    let content :=
      match fmt with
      | .csv => writeCsvContent transformedData
      | .xlsx => xenc transformedData
    Except.ok
      { ok := validationErrors.length == 0,
        countsIn := sourceData.length,
        countsOut := transformedData.length,
        countsErrors := validationErrors.length,
        timings := stageDurations,
        artifactContent := content,
        artifactHash := sha content }

/-- The artifact content and hash of a pipeline outcome, when one was
written. -/
def runArtifact : Except String RunResultM → Option (String × String)
  | .error _ => none
  | .ok r => some (r.artifactContent, r.artifactHash)

/-- The coverage check of the `workflow:run` handler:
`!!(m && (m.email || (m.emails && m.emails.length > 0)))`. -/
def hasAnyEmail (mo : Option UserMetadata) : Bool :=
  match mo with
  | none => false
  | some m =>
    m.email ≠ "" ||
      (match m.emails with
        | some l => decide (0 < l.length)
        | none => false)

/-- The identifiers the coverage gate reports as missing, in request
order. -/
def coverageMissingIds (idguids : List String) (metadata : Obj UserMetadata) : List String :=
  idguids.filter (fun id => ¬ hasAnyEmail (jsGet id metadata))

/-- The lines of the `metadata_diagnostics.txt` artifact. -/
def coverageDiagLines (idguids missingIds : List String) : List String :=
  ["Total IDs: " ++ toString idguids.length,
   "Resolved metadata entries: " ++ toString (idguids.length - missingIds.length),
   "Missing metadata entries: " ++ toString missingIds.length,
   "",
   "IDs with missing metadata:"] ++ missingIds

/-- The observable outcome of one `workflow:run` invocation after metadata
resolution: the returned flag, the coverage diagnostic artifact content
(when written) and the primary output artifact content (when written). -/
structure WorkflowOutcome where
  ok : Bool
  diagnostic : Option (List String)
  primaryOutput : Option String
  deriving Repr

/-- The post-resolution part of the `workflow:run` handler: run the
coverage gate over the requested identifiers and the resolved metadata;
on failure write the diagnostic and return `ok: false` without invoking
the pipeline; otherwise run the pipeline (a thrown pipeline error is
caught into `ok: false` with no artifacts). -/
def workflowRunModel (idguids : List String) (metadata : Obj UserMetadata)
    (sourceData : List DataRow) (emailDomainKeywords : List String) (companyName : String)
    (fmt : OutputFormat) (xenc : List DataRow → String) (sha : String → String)
    (stageDurations : List Int) : WorkflowOutcome :=
  let missingIds := coverageMissingIds idguids metadata
  if 0 < missingIds.length then
    { ok := false,
      diagnostic := some (coverageDiagLines idguids missingIds),
      primaryOutput := none }
  else
    match runPipelineModel sourceData (fun id => jsGet id metadata) emailDomainKeywords
        companyName fmt xenc sha stageDurations with
    | .error _ => { ok := false, diagnostic := none, primaryOutput := none }
    | .ok r => { ok := r.ok, diagnostic := none, primaryOutput := some r.artifactContent }

/-! ### Specification-side predicates

These definitions follow the words of the specification claims (not the
source); they exist to be compared with the source-derived definitions
above. -/

/-- Claim C4's name-derived rule, following the claim words: for the first
or last name (present and non-empty), the lowercased trimmed name equals a
token, or is a substring of some token, or — when the name contains
whitespace — some whitespace-split word of it equals or is a substring of
some token. -/
def nameRuleSpec (orderEmail : String) (firstName lastName : Option String) : Bool :=
  let tokens := extractNameParts orderEmail
  let fires := fun (name : String) =>
    let n := sTrim (sLower name)
    nameHit tokens n ||
      ((n.toList.any Char.isWhitespace) && (wordsOf n).any (fun w => nameHit tokens w))
  (jsTruthyOptStr firstName && fires (firstName.getD "")) ||
    (jsTruthyOptStr lastName && fires (lastName.getD ""))

/-- The amended form of C4's name-derived rule: identical to
`nameRuleSpec` except that the word-split branch is only taken when the
name contains a space character (U+0020), as the code tests with
`nameLower.includes(' ')`. -/
def nameRuleSpecAmended (orderEmail : String) (firstName lastName : Option String) : Bool :=
  let tokens := extractNameParts orderEmail
  let fires := fun (name : String) =>
    let n := sTrim (sLower name)
    nameHit tokens n ||
      (strContains n " " && (wordsOf n).any (fun w => nameHit tokens w))
  (jsTruthyOptStr firstName && fires (firstName.getD "")) ||
    (jsTruthyOptStr lastName && fires (lastName.getD ""))

/-! ### Object and fold lemmas -/

theorem jsGet_eq_none_of_not_mem {β : Type} {k : String} {m : Obj β}
    (h : k ∉ m.map Prod.fst) : jsGet k m = none := by
  induction m with
  | nil => rfl
  | cons kv rest ih =>
    simp only [List.map_cons, List.mem_cons, not_or] at h
    simp only [jsGet, if_neg (Ne.symm h.1)]
    exact ih h.2

theorem jsGet_some_mem {β : Type} {k : String} {v : β} :
    ∀ {m : Obj β}, jsGet k m = some v → (k, v) ∈ m := by
  intro m
  induction m with
  | nil => intro h; simp [jsGet] at h
  | cons kv rest ih =>
    intro h
    obtain ⟨k₀, v₀⟩ := kv
    by_cases hk : k₀ = k
    · subst hk
      simp only [jsGet, if_true, eq_self_iff_true, Option.some.injEq] at h
      subst h
      exact List.mem_cons_self _ _
    · simp only [jsGet, if_neg hk] at h
      exact List.mem_cons_of_mem _ (ih h)

theorem jsSet_not_mem {β : Type} {k : String} (v : β) {m : Obj β}
    (h : k ∉ m.map Prod.fst) : jsSet k v m = m ++ [(k, v)] := by
  induction m with
  | nil => rfl
  | cons kv rest ih =>
    simp only [List.map_cons, List.mem_cons, not_or] at h
    simp only [jsSet, if_neg (Ne.symm h.1), List.cons_append]
    rw [ih h.2]

theorem jsGet_jsSet_ne {β : Type} {k k₂ : String} (v : β) (m : Obj β) (h : k₂ ≠ k) :
    jsGet k (jsSet k₂ v m) = jsGet k m := by
  induction m with
  | nil => simp [jsGet, jsSet, if_neg h]
  | cons kv rest ih =>
    by_cases hk : kv.1 = k₂
    · simp only [jsSet, if_pos hk, jsGet]
      rw [if_neg, if_neg] <;> simp_all
    · simp only [jsSet, if_neg hk, jsGet]
      by_cases hkk : kv.1 = k
      · simp [if_pos hkk]
      · simp only [if_neg hkk]
        exact ih

theorem jsGet_jsSet_self {β : Type} (k : String) (v : β) (m : Obj β) :
    jsGet k (jsSet k v m) = some v := by
  induction m with
  | nil => simp [jsGet, jsSet]
  | cons kv rest ih =>
    by_cases hk : kv.1 = k
    · simp [jsSet, jsGet, if_pos hk]
    · simp only [jsSet, if_neg hk, jsGet, if_neg hk]
      exact ih

theorem foldl_jsSet_get_not_mem {β : Type} {k : String} :
    ∀ (row : Obj β) (acc : Obj β), k ∉ row.map Prod.fst →
      jsGet k (row.foldl (fun a kv => jsSet kv.1 kv.2 a) acc) = jsGet k acc := by
  intro row
  induction row with
  | nil => intro acc _; rfl
  | cons kv rest ih =>
    intro acc h
    simp only [List.map_cons, List.mem_cons, not_or] at h
    simp only [List.foldl_cons]
    rw [ih _ h.2, jsGet_jsSet_ne _ _ (Ne.symm h.1)]

theorem foldl_jsSet_append {β : Type} :
    ∀ (row : Obj β) (acc : Obj β), (∀ x ∈ row.map Prod.fst, x ∉ acc.map Prod.fst) →
      (row.map Prod.fst).Nodup →
      row.foldl (fun a kv => jsSet kv.1 kv.2 a) acc = acc ++ row := by
  intro row
  induction row with
  | nil => intro acc _ _; simp
  | cons kv rest ih =>
    intro acc hdis hnd
    simp only [List.map_cons, List.nodup_cons] at hnd
    simp only [List.foldl_cons]
    rw [jsSet_not_mem kv.2 (hdis kv.1 (by simp))]
    rw [ih (acc ++ [(kv.1, kv.2)])]
    · simp
    · intro x hx
      simp only [List.map_append, List.mem_append, not_or]
      refine ⟨hdis x (by simp [hx]), ?_⟩
      simp only [List.map_cons, List.map_nil, List.mem_singleton]
      rintro rfl
      exact hnd.1 hx
    · exact hnd.2

theorem foldl_jsSet_two_keys {β : Type} {k₁ k₂ : String} (hk : k₁ ≠ k₂) :
    ∀ (row : Obj β) (x y : β) (t : Obj β), (row.map Prod.fst).Nodup →
      row.foldl (fun a kv => jsSet kv.1 kv.2 a) ((k₁, x) :: (k₂, y) :: t) =
        (k₁, (jsGet k₁ row).getD x) :: (k₂, (jsGet k₂ row).getD y) ::
          ((row.filter (fun kv => !(kv.1 == k₁ || kv.1 == k₂))).foldl
            (fun a kv => jsSet kv.1 kv.2 a) t) := by
  intro row
  induction row with
  | nil => intro x y t _; simp [jsGet]
  | cons kv rest ih =>
    intro x y t hnd
    obtain ⟨k, v⟩ := kv
    simp only [List.map_cons, List.nodup_cons] at hnd
    by_cases h₁ : k = k₁
    · subst h₁
      have hset : jsSet k v ((k, x) :: (k₂, y) :: t) = (k, v) :: (k₂, y) :: t := by
        simp [jsSet]
      simp only [List.foldl_cons, hset]
      rw [ih v y t hnd.2]
      have hrest : jsGet k rest = none := jsGet_eq_none_of_not_mem hnd.1
      simp [jsGet, hrest, hk, Ne.symm hk]
    · by_cases h₂ : k = k₂
      · subst h₂
        have hset : jsSet k v ((k₁, x) :: (k, y) :: t) = (k₁, x) :: (k, v) :: t := by
          simp [jsSet, Ne.symm h₁]
        simp only [List.foldl_cons, hset]
        rw [ih x v t hnd.2]
        have hrest : jsGet k rest = none := jsGet_eq_none_of_not_mem hnd.1
        simp [jsGet, hrest, h₁, Ne.symm h₁]
      · have hset : jsSet k v ((k₁, x) :: (k₂, y) :: t) =
            (k₁, x) :: (k₂, y) :: jsSet k v t := by
          simp [jsSet, Ne.symm h₁, Ne.symm h₂]
        simp only [List.foldl_cons, hset]
        rw [ih x y (jsSet k v t) hnd.2]
        simp [jsGet, h₁, h₂, List.filter_cons]

theorem applyTransformRules_singleton (row : DataRow) (metadata : String → Option UserMetadata)
    (domainKeywords : Option (List String)) (companyName : Option String) :
    applyTransformRules [row] metadata domainKeywords companyName =
      [buildOutput row (decideRow row metadata domainKeywords companyName).1
        (decideRow row metadata domainKeywords companyName).2] := rfl

theorem buildOutput_get_decision {row : DataRow} (d r : String)
    (h : "Decision" ∉ row.map Prod.fst) :
    jsGet "Decision" (buildOutput row d r) = some (JValue.vStr d) := by
  unfold buildOutput
  rw [foldl_jsSet_get_not_mem row _ h]
  simp [jsGet]

theorem buildOutput_get_reason {row : DataRow} (d r : String)
    (h : "Reason" ∉ row.map Prod.fst) :
    jsGet "Reason" (buildOutput row d r) = some (JValue.vStr r) := by
  unfold buildOutput
  rw [foldl_jsSet_get_not_mem row _ h]
  simp [jsGet]

theorem decideRow_fst_eq_Y_iff (row : DataRow) (metadata : String → Option UserMetadata)
    (domainKeywords : Option (List String)) (companyName : Option String) :
    ((decideRow row metadata domainKeywords companyName).1 = "Y") ↔
      (rule1Fires row metadata || rule2Fires row metadata ||
        rule3Fires row domainKeywords || rule4Fires row) = true := by
  unfold decideRow
  cases h1 : rule1Fires row metadata <;> cases h2 : rule2Fires row metadata <;>
    cases h3 : rule3Fires row domainKeywords <;> cases h4 : rule4Fires row <;>
      simp

theorem decideRow_default (row : DataRow) (metadata : String → Option UserMetadata)
    (domainKeywords : Option (List String)) (companyName : Option String)
    (h : (rule1Fires row metadata || rule2Fires row metadata ||
        rule3Fires row domainKeywords || rule4Fires row) = false) :
    decideRow row metadata domainKeywords companyName = ("N", "No verification rule matched") := by
  simp only [Bool.or_eq_false_iff] at h
  simp [decideRow, h.1.1.1, h.1.1.2, h.1.2, h.2]

/-! ### Claim theorems -/

/-- Claim C2 (counterexample): for the input row `{"Decision": "X"}` no
rule fires, yet the produced record's `Decision` field is `"X"`, not the
claimed `"N"` — the copy of original fields overwrites the computed pair. -/
theorem decision_iff_rules_counterexample :
    (rule1Fires [("Decision", JValue.vStr "X")] (fun _ => none) ||
      rule2Fires [("Decision", JValue.vStr "X")] (fun _ => none) ||
      rule3Fires [("Decision", JValue.vStr "X")] none ||
      rule4Fires [("Decision", JValue.vStr "X")]) = false ∧
    jsGet "Decision"
        ((applyTransformRules [[("Decision", JValue.vStr "X")]] (fun _ => none) none none).headD [])
      ≠ some (JValue.vStr "N") ∧
    jsGet "Decision"
        ((applyTransformRules [[("Decision", JValue.vStr "X")]] (fun _ => none) none none).headD [])
      ≠ some (JValue.vStr "Y") := by
  refine ⟨by decide, by decide, by decide⟩

/-- Claim C2 (amended): for every input row that does not already contain a
`Decision` or `Reason` field, the produced VerificationRecord's `Decision`
is `"Y"` iff at least one of the four ordered rules fires for that row;
otherwise `Decision` is `"N"` and `Reason` is exactly
`"No verification rule matched"`. -/
theorem decision_iff_rules_amended (row : DataRow) (metadata : String → Option UserMetadata)
    (domainKeywords : Option (List String)) (companyName : Option String)
    (hD : "Decision" ∉ row.map Prod.fst) (hR : "Reason" ∉ row.map Prod.fst) :
    (jsGet "Decision" ((applyTransformRules [row] metadata domainKeywords companyName).headD [])
        = some (JValue.vStr "Y")
      ↔ (rule1Fires row metadata || rule2Fires row metadata ||
          rule3Fires row domainKeywords || rule4Fires row) = true) ∧
    ((rule1Fires row metadata || rule2Fires row metadata ||
        rule3Fires row domainKeywords || rule4Fires row) = false →
      jsGet "Decision" ((applyTransformRules [row] metadata domainKeywords companyName).headD [])
          = some (JValue.vStr "N") ∧
        jsGet "Reason" ((applyTransformRules [row] metadata domainKeywords companyName).headD [])
          = some (JValue.vStr "No verification rule matched")) := by
  rw [applyTransformRules_singleton]
  simp only [List.headD_cons]
  rw [buildOutput_get_decision _ _ hD, buildOutput_get_reason _ _ hR]
  constructor
  · rw [← decideRow_fst_eq_Y_iff row metadata domainKeywords companyName]
    simp
  · intro h
    rw [decideRow_default row metadata domainKeywords companyName h]
    exact ⟨rfl, rfl⟩

/-- Claim C3: for every row whose subject resolves to metadata of the shape
the resolver produces for a usable response (alternate list present, the
canonical email a member of it, every entry non-empty after normalization),
an exact lowercased-trimmed match between the row's email and the canonical
email or any alternate email makes the decision engine return exactly
`("Y", "Email matches user metadata")`, regardless of the domain-keyword
configuration, the company name, or whether the name, domain or category
rules would also match. -/
theorem email_match_priority (row : DataRow) (metadata : String → Option UserMetadata)
    (domainKeywords : Option (List String)) (companyName : Option String)
    (m : UserMetadata) (l : List String)
    (hm : metadata (rowUserName row) = some m)
    (hl : m.emails = some l)
    (hmem : m.email ∈ l)
    (hne : ∀ e ∈ l, normalizeEmail e ≠ "")
    (hmatch : normalizeEmail (rowEmail row) = normalizeEmail m.email ∨
      ∃ e ∈ l, normalizeEmail (rowEmail row) = normalizeEmail e) :
    decideRow row metadata domainKeywords companyName = ("Y", "Email matches user metadata") := by
  obtain ⟨e, he, heq⟩ : ∃ e ∈ l, normalizeEmail (rowEmail row) = normalizeEmail e := by
    rcases hmatch with h | h
    · exact ⟨m.email, hmem, h⟩
    · exact h
  have hniceE : normalizeEmail e ≠ "" := hne e he
  have hENe : e ≠ "" := by
    intro hcontra
    apply hniceE
    rw [hcontra]
    rfl
  have hRowNe : rowEmail row ≠ "" := by
    intro hcontra
    apply hniceE
    rw [← heq, hcontra]
    rfl
  have hcheck : checkEmailMatchesMetadata (rowEmail row) (emailsOrEmail m) = true := by
    unfold emailsOrEmail
    rw [hl]
    unfold checkEmailMatchesMetadata
    rw [if_neg hRowNe]
    simp only [emailsArgTruthy, not_true, if_false, Bool.not_eq_true]
    rw [List.any_eq_true]
    refine ⟨e, he, ?_⟩
    simp [hENe, heq.symm]
  have hr1 : rule1Fires row metadata = true := by
    unfold rule1Fires
    rw [hm]
    exact hcheck
  simp [decideRow, hr1]

/-- Claim C5 (counterexample): for the input row
`{"A": "1", "Decision": "X"}` the produced record is
`{"Decision": "X", "Reason": ..., "A": "1"}`: the original fields `A` and
`Decision` appear in the opposite relative order, so original fields are
not all preserved in original order after the two new fields. -/
theorem field_preservation_counterexample :
    (applyTransformRules [[("A", JValue.vStr "1"), ("Decision", JValue.vStr "X")]]
        (fun _ => none) none none).headD [] =
      [("Decision", JValue.vStr "X"),
       ("Reason", JValue.vStr "No verification rule matched"),
       ("A", JValue.vStr "1")] ∧
    (((applyTransformRules [[("A", JValue.vStr "1"), ("Decision", JValue.vStr "X")]]
          (fun _ => none) none none).headD []).map Prod.fst).filter
        (fun k => [("A", JValue.vStr "1"), ("Decision", JValue.vStr "X")].map Prod.fst |>.contains k)
      ≠ [("A", JValue.vStr "1"), ("Decision", JValue.vStr "X")].map Prod.fst := by
  refine ⟨by decide, by decide⟩

/-- Claim C5 (amended): for every input row with pairwise-distinct field
names that does not already contain a `Decision` or `Reason` field, the
produced VerificationRecord is exactly `Decision` and `Reason` followed by
all original fields with unchanged names, values and order. -/
theorem field_preservation_amended (row : DataRow) (metadata : String → Option UserMetadata)
    (domainKeywords : Option (List String)) (companyName : Option String)
    (hnd : (row.map Prod.fst).Nodup)
    (hD : "Decision" ∉ row.map Prod.fst) (hR : "Reason" ∉ row.map Prod.fst) :
    applyTransformRules [row] metadata domainKeywords companyName =
      [("Decision", JValue.vStr (decideRow row metadata domainKeywords companyName).1) ::
       ("Reason", JValue.vStr (decideRow row metadata domainKeywords companyName).2) :: row] := by
  rw [applyTransformRules_singleton]
  unfold buildOutput
  rw [foldl_jsSet_append row _ ?_ hnd]
  · rfl
  · intro x hx
    simp only [List.map_cons, List.map_nil, List.mem_cons, List.not_mem_nil, not_or]
    refine ⟨?_, ?_, by simp⟩
    · rintro rfl; exact hD hx
    · rintro rfl; exact hR hx

/-- Claim C10: when an input row (with pairwise-distinct field names)
already contains `Decision` and `Reason` fields, the produced record keeps
those keys in the two leading positions but with the row's original values,
followed by the remaining original fields; the result does not depend on
the metadata, the domain keywords or the company name at all, so the
engine's computed decision is not observable in the output record. -/
theorem original_decision_overwrites (row : DataRow) (dv rv : JValue)
    (hnd : (row.map Prod.fst).Nodup)
    (hDv : jsGet "Decision" row = some dv)
    (hRv : jsGet "Reason" row = some rv) :
    ∀ (metadata : String → Option UserMetadata) (domainKeywords : Option (List String))
      (companyName : Option String),
      applyTransformRules [row] metadata domainKeywords companyName =
        [("Decision", dv) :: ("Reason", rv) ::
          row.filter (fun kv => !(kv.1 == "Decision" || kv.1 == "Reason"))] := by
  intro metadata domainKeywords companyName
  rw [applyTransformRules_singleton]
  unfold buildOutput
  rw [foldl_jsSet_two_keys (by decide) row _ _ _ hnd]
  rw [hDv, hRv]
  simp only [Option.getD_some]
  have htail : (row.filter (fun kv => !(kv.1 == "Decision" || kv.1 == "Reason"))).foldl
      (fun a kv => jsSet kv.1 kv.2 a) [] =
      row.filter (fun kv => !(kv.1 == "Decision" || kv.1 == "Reason")) := by
    have hsub : ((row.filter (fun kv => !(kv.1 == "Decision" || kv.1 == "Reason"))).map
        Prod.fst).Nodup :=
      hnd.sublist ((List.filter_sublist row).map Prod.fst)
    have := foldl_jsSet_append
      (row.filter (fun kv => !(kv.1 == "Decision" || kv.1 == "Reason"))) [] (by simp) hsub
    simpa using this
  rw [htail]

/-- Witness for the amended C2 theorem at a concrete row where the
corporate-domain rule fires. -/
theorem decision_iff_rules_amended_witness :
    ("Decision" ∉ ([("Email Address", JValue.vStr "t@mycompany.com")] : DataRow).map Prod.fst) ∧
    ("Reason" ∉ ([("Email Address", JValue.vStr "t@mycompany.com")] : DataRow).map Prod.fst) ∧
    ((jsGet "Decision" ((applyTransformRules [[("Email Address", JValue.vStr "t@mycompany.com")]]
          (fun _ => none) (some ["mycompany"]) (some "MyCo")).headD []) = some (JValue.vStr "Y")
        ↔ (rule1Fires [("Email Address", JValue.vStr "t@mycompany.com")] (fun _ => none) ||
            rule2Fires [("Email Address", JValue.vStr "t@mycompany.com")] (fun _ => none) ||
            rule3Fires [("Email Address", JValue.vStr "t@mycompany.com")] (some ["mycompany"]) ||
            rule4Fires [("Email Address", JValue.vStr "t@mycompany.com")]) = true) ∧
      ((rule1Fires [("Email Address", JValue.vStr "t@mycompany.com")] (fun _ => none) ||
          rule2Fires [("Email Address", JValue.vStr "t@mycompany.com")] (fun _ => none) ||
          rule3Fires [("Email Address", JValue.vStr "t@mycompany.com")] (some ["mycompany"]) ||
          rule4Fires [("Email Address", JValue.vStr "t@mycompany.com")]) = false →
        jsGet "Decision" ((applyTransformRules [[("Email Address", JValue.vStr "t@mycompany.com")]]
            (fun _ => none) (some ["mycompany"]) (some "MyCo")).headD [])
          = some (JValue.vStr "N") ∧
        jsGet "Reason" ((applyTransformRules [[("Email Address", JValue.vStr "t@mycompany.com")]]
            (fun _ => none) (some ["mycompany"]) (some "MyCo")).headD [])
          = some (JValue.vStr "No verification rule matched"))) :=
  ⟨by decide, by decide,
    decision_iff_rules_amended [("Email Address", JValue.vStr "t@mycompany.com")]
      (fun _ => none) (some ["mycompany"]) (some "MyCo") (by decide) (by decide)⟩

/-- Witness for the C3 theorem: an exact match on the canonical email wins
even though the name rule and the domain rule would also match. -/
theorem email_match_priority_witness :
    ((fun id => if id = "user-123" then
        some ({ user_id := "user-123", email := "john.doe@personal.com",
                emails := some ["john.doe@personal.com", "j.doe@alt.com"],
                first_name := some "John", last_name := some "Doe" } : UserMetadata)
      else none)
      (rowUserName [("Email Address", JValue.vStr "john.doe@personal.com"),
        ("User Name", JValue.vStr "user-123")]) =
      some { user_id := "user-123", email := "john.doe@personal.com",
             emails := some ["john.doe@personal.com", "j.doe@alt.com"],
             first_name := some "John", last_name := some "Doe" }) ∧
    (∀ e ∈ ["john.doe@personal.com", "j.doe@alt.com"], normalizeEmail e ≠ "") ∧
    decideRow [("Email Address", JValue.vStr "john.doe@personal.com"),
        ("User Name", JValue.vStr "user-123")]
      (fun id => if id = "user-123" then
        some { user_id := "user-123", email := "john.doe@personal.com",
               emails := some ["john.doe@personal.com", "j.doe@alt.com"],
               first_name := some "John", last_name := some "Doe" }
      else none)
      (some ["personal"]) (some "P") = ("Y", "Email matches user metadata") :=
  ⟨by decide, by decide,
    email_match_priority _ _ (some ["personal"]) (some "P")
      { user_id := "user-123", email := "john.doe@personal.com",
        emails := some ["john.doe@personal.com", "j.doe@alt.com"],
        first_name := some "John", last_name := some "Doe" }
      ["john.doe@personal.com", "j.doe@alt.com"]
      (by decide) rfl (by decide) (by decide) (by decide)⟩

/-- Witness for the amended C5 theorem at a concrete two-field row. -/
theorem field_preservation_amended_witness :
    ((([("Email Address", JValue.vStr "x@y.com"), ("Order ID", JValue.vStr "12345")] :
        DataRow).map Prod.fst).Nodup) ∧
    applyTransformRules [[("Email Address", JValue.vStr "x@y.com"),
        ("Order ID", JValue.vStr "12345")]] (fun _ => none) none none =
      [("Decision", JValue.vStr (decideRow [("Email Address", JValue.vStr "x@y.com"),
          ("Order ID", JValue.vStr "12345")] (fun _ => none) none none).1) ::
       ("Reason", JValue.vStr (decideRow [("Email Address", JValue.vStr "x@y.com"),
          ("Order ID", JValue.vStr "12345")] (fun _ => none) none none).2) ::
       [("Email Address", JValue.vStr "x@y.com"), ("Order ID", JValue.vStr "12345")]] :=
  ⟨by decide,
    field_preservation_amended [("Email Address", JValue.vStr "x@y.com"),
        ("Order ID", JValue.vStr "12345")] (fun _ => none) none none
      (by decide) (by decide) (by decide)⟩

/-- Witness for the C10 theorem at a row carrying its own `Decision` and
`Reason` values. -/
theorem original_decision_overwrites_witness :
    jsGet "Decision" ([("Email Address", JValue.vStr "a@b.com"),
        ("Decision", JValue.vStr "X"), ("Reason", JValue.vStr "orig")] : DataRow) =
      some (JValue.vStr "X") ∧
    applyTransformRules [[("Email Address", JValue.vStr "a@b.com"),
        ("Decision", JValue.vStr "X"), ("Reason", JValue.vStr "orig")]]
      (fun _ => none) none none =
      [("Decision", JValue.vStr "X") :: ("Reason", JValue.vStr "orig") ::
        ([("Email Address", JValue.vStr "a@b.com"),
          ("Decision", JValue.vStr "X"), ("Reason", JValue.vStr "orig")] : DataRow).filter
          (fun kv => !(kv.1 == "Decision" || kv.1 == "Reason"))] :=
  ⟨by decide,
    original_decision_overwrites [("Email Address", JValue.vStr "a@b.com"),
        ("Decision", JValue.vStr "X"), ("Reason", JValue.vStr "orig")]
      (JValue.vStr "X") (JValue.vStr "orig") (by decide) (by decide) (by decide)
      (fun _ => none) none none⟩

theorem checkNameParts_eq (tokens : List String) (name : String) :
    checkNameParts tokens name =
      (nameHit tokens (sTrim (sLower name)) ||
        (strContains (sTrim (sLower name)) " " &&
          (wordsOf (sTrim (sLower name))).any (fun w => nameHit tokens w))) := by
  unfold checkNameParts
  cases h1 : nameHit tokens (sTrim (sLower name)) <;>
    cases h2 : strContains (sTrim (sLower name)) " " <;>
      simp [h1, h2]

theorem nameRuleSpecAmended_empty_email (firstName lastName : Option String) :
    nameRuleSpecAmended "" firstName lastName = false := by
  unfold nameRuleSpecAmended
  have hx : extractNameParts "" = [] := rfl
  rw [hx]
  simp [nameHit]

/-- Claim C4 (counterexample): for the name `"john\tq"` — which contains
whitespace (a tab) but no space character — and the email `"john@x.com"`,
the claim's rule (whitespace-split words, word `"john"` equals the token
`"john"`) fires, but the code's `checkEmailContainsName` does not, because
the word-split branch is guarded by `nameLower.includes(' ')`; the engine
therefore returns the default `("N", ...)` decision. -/
theorem name_rule_spec_counterexample :
    nameRuleSpec "john@x.com" (some "john\tq") none = true ∧
    checkEmailContainsName "john@x.com" (some "john\tq") none = false ∧
    decideRow [("Email Address", JValue.vStr "john@x.com"), ("User Name", JValue.vStr "u1")]
      (fun id => if id = "u1" then
        some { user_id := "u1", email := "zz@q.com", emails := some ["zz@q.com"],
               first_name := some "john\tq" }
      else none) none none = ("N", "No verification rule matched") := by
  refine ⟨by decide, by decide, by decide⟩

/-- Claim C4 (amended): the name-derived rule fires exactly as described by
the claim with one change — the word-split branch applies when the name
contains a space character (U+0020), not arbitrary whitespace; and when the
email rule did not fire but the name rule did, the engine's reason is
exactly the trimmed concatenation
`"Email contains user name ({firstName} {lastName})"`. -/
theorem name_rule_characterization :
    (∀ (orderEmail : String) (firstName lastName : Option String),
      checkEmailContainsName orderEmail firstName lastName =
        nameRuleSpecAmended orderEmail firstName lastName) ∧
    (∀ (row : DataRow) (metadata : String → Option UserMetadata)
        (domainKeywords : Option (List String)) (companyName : Option String),
      rule1Fires row metadata = false → rule2Fires row metadata = true →
      decideRow row metadata domainKeywords companyName =
        ("Y", "Email contains user name (" ++ fullNameOf (metadata (rowUserName row)) ++ ")")) := by
  constructor
  · intro orderEmail firstName lastName
    by_cases he : orderEmail = ""
    · subst he
      rw [nameRuleSpecAmended_empty_email]
      simp [checkEmailContainsName]
    · unfold checkEmailContainsName nameRuleSpecAmended
      rw [if_neg he]
      simp only [checkNameParts_eq]
  · intro row metadata domainKeywords companyName h1 h2
    simp [decideRow, h1, h2]

/-- Witness for the amended C4 theorem: the predicate equality at a
concrete email/name pair, and the rule-2 reason at a concrete row. -/
theorem name_rule_characterization_witness :
    (checkEmailContainsName "john.work@company.com" (some "John") (some "Doe") =
      nameRuleSpecAmended "john.work@company.com" (some "John") (some "Doe")) ∧
    rule1Fires [("Email Address", JValue.vStr "john.work@company.com"),
        ("User Name", JValue.vStr "user-123")]
      (fun id => if id = "user-123" then
        some { user_id := "user-123", email := "john.doe@personal.com",
               emails := some ["john.doe@personal.com"],
               first_name := some "John", last_name := some "Doe" }
      else none) = false ∧
    decideRow [("Email Address", JValue.vStr "john.work@company.com"),
        ("User Name", JValue.vStr "user-123")]
      (fun id => if id = "user-123" then
        some { user_id := "user-123", email := "john.doe@personal.com",
               emails := some ["john.doe@personal.com"],
               first_name := some "John", last_name := some "Doe" }
      else none) none none =
      ("Y", "Email contains user name (" ++
        fullNameOf ((fun id => if id = "user-123" then
          some ({ user_id := "user-123", email := "john.doe@personal.com",
                  emails := some ["john.doe@personal.com"],
                  first_name := some "John", last_name := some "Doe" } : UserMetadata)
        else none)
          (rowUserName [("Email Address", JValue.vStr "john.work@company.com"),
            ("User Name", JValue.vStr "user-123")])) ++ ")") :=
  ⟨name_rule_characterization.1 "john.work@company.com" (some "John") (some "Doe"),
    by decide,
    name_rule_characterization.2 [("Email Address", JValue.vStr "john.work@company.com"),
        ("User Name", JValue.vStr "user-123")]
      (fun id => if id = "user-123" then
        some { user_id := "user-123", email := "john.doe@personal.com",
               emails := some ["john.doe@personal.com"],
               first_name := some "John", last_name := some "Doe" }
      else none) none none (by decide) (by decide)⟩

theorem chunk10_nil : chunk10 [] = [] := by
  unfold chunk10
  rfl

theorem chunk10_cons {l : List String} (h : l ≠ []) :
    chunk10 l = l.take 10 :: chunk10 (l.drop 10) := by
  rw [chunk10]
  simp [h]

theorem chunk10_spec : ∀ (n : Nat) (l : List String), l.length ≤ n →
    (chunk10 l).flatten = l ∧ ∀ b ∈ chunk10 l, 1 ≤ b.length ∧ b.length ≤ 10 := by
  intro n
  induction n with
  | zero =>
    intro l hl
    have : l = [] := List.eq_nil_of_length_eq_zero (Nat.le_zero.mp hl)
    subst this
    simp [chunk10_nil]
  | succ n ih =>
    intro l hl
    by_cases h : l = []
    · subst h
      simp [chunk10_nil]
    · have hpos : 0 < l.length := List.length_pos.mpr h
      have hdrop : (l.drop 10).length ≤ n := by
        rw [List.length_drop]
        omega
      obtain ⟨ihj, ihb⟩ := ih (l.drop 10) hdrop
      rw [chunk10_cons h]
      constructor
      · simp only [List.flatten_cons, ihj]
        exact List.take_append_drop 10 l
      · intro b hb
        rcases List.mem_cons.mp hb with hb | hb
        · subst hb
          rw [List.length_take]
          omega
        · exact ihb b hb

theorem progressAux_length (total : Nat) :
    ∀ (c : Nat) (bs : List (List String)),
      (progressAux total c bs).length = bs.length := by
  intro c bs
  induction bs generalizing c with
  | nil => rfl
  | cons b rest ih => simp [progressAux, ih]

/-- Claim C6: the resolver partitions the identifier list into sequential
batches of at most 10 (the batches concatenate back to the list in order),
the progress callback is invoked exactly once per batch, and for 25
identifiers the batches have sizes 10, 10, 5 with progress arguments
`(10,25)`, `(20,25)`, `(25,25)`. -/
theorem batching_progress :
    (∀ idguids : List String,
      (chunk10 idguids).flatten = idguids ∧
        ∀ b ∈ chunk10 idguids, 1 ≤ b.length ∧ b.length ≤ 10) ∧
    (∀ idguids : List String,
      (progressEvents idguids).length = (chunk10 idguids).length) ∧
    (∀ idguids : List String, idguids.length = 25 →
      (chunk10 idguids).map List.length = [10, 10, 5] ∧
        progressEvents idguids = [(10, 25), (20, 25), (25, 25)]) := by
  refine ⟨fun ids => chunk10_spec ids.length ids le_rfl, ?_, ?_⟩
  · intro ids
    exact progressAux_length ids.length 0 (chunk10 ids)
  · intro ids hlen
    have h0 : ids ≠ [] := by
      intro h
      rw [h] at hlen
      simp at hlen
    have hd10 : (ids.drop 10).length = 15 := by
      rw [List.length_drop, hlen]
    have hd20 : ((ids.drop 10).drop 10).length = 5 := by
      rw [List.length_drop, hd10]
    have h1 : ids.drop 10 ≠ [] := by
      intro h
      rw [h] at hd10
      simp at hd10
    have h2 : (ids.drop 10).drop 10 ≠ [] := by
      intro h
      rw [h] at hd20
      simp at hd20
    have h3 : ((ids.drop 10).drop 10).drop 10 = [] := by
      apply List.eq_nil_of_length_eq_zero
      rw [List.length_drop, hd20]
    have hch : chunk10 ids =
        [ids.take 10, (ids.drop 10).take 10, (ids.drop 10).drop 10] := by
      rw [chunk10_cons h0, chunk10_cons h1, chunk10_cons h2, h3, chunk10_nil]
      rw [List.take_of_length_le (by omega : ((ids.drop 10).drop 10).length ≤ 10)]
    constructor
    · rw [hch]
      simp only [List.map_cons, List.map_nil, List.length_take, hlen, hd10, hd20]
      norm_num
    · unfold progressEvents
      rw [hch, hlen]
      simp [progressAux, List.length_take, hlen, hd10, hd20]

/-- Witness for the C6 theorem at a concrete 25-identifier list. -/
theorem batching_progress_witness :
    ((List.range 25).map (fun i => "id" ++ toString i)).length = 25 ∧
    (chunk10 ((List.range 25).map (fun i => "id" ++ toString i))).map List.length =
      [10, 10, 5] ∧
    progressEvents ((List.range 25).map (fun i => "id" ++ toString i)) =
      [(10, 25), (20, 25), (25, 25)] :=
  ⟨by decide,
    (batching_progress.2.2 ((List.range 25).map (fun i => "id" ++ toString i)) (by decide)).1,
    (batching_progress.2.2 ((List.range 25).map (fun i => "id" ++ toString i)) (by decide)).2⟩

theorem batch_zip_fold_eq (interp : String → UserMetadata) :
    ∀ (batch : List String) (acc : Obj UserMetadata),
      (batch.zip (batch.map interp)).foldl
          (fun m p => if p.1 ≠ "" then jsSet p.1 p.2 m else m) acc =
        batch.foldl (fun m id => if id ≠ "" then jsSet id (interp id) m else m) acc := by
  intro batch
  induction batch with
  | nil => intro acc; rfl
  | cons a as ih =>
    intro acc
    simp only [List.map_cons, List.zip_cons_cons, List.foldl_cons]
    exact ih _

theorem foldl_setFold_eq_flatten {α : Type} (step : α → String → α) :
    ∀ (bs : List (List String)) (acc : α),
      bs.foldl (fun a batch => batch.foldl step a) acc = bs.flatten.foldl step acc := by
  intro bs
  induction bs with
  | nil => intro acc; rfl
  | cons b rest ih =>
    intro acc
    simp only [List.foldl_cons, List.flatten_cons, List.foldl_append]
    exact ih _

theorem fetchAll_eq_foldl (idguids : List String) (respOf : String → FetchResponse) :
    fetchAllMetadataModel idguids respOf =
      idguids.foldl
        (fun m id => if id ≠ "" then jsSet id (fetchUserMetadataModel id (respOf id)) m else m)
        [] := by
  unfold fetchAllMetadataModel
  simp only [batch_zip_fold_eq]
  rw [foldl_setFold_eq_flatten]
  rw [(chunk10_spec idguids.length idguids le_rfl).1]

theorem foldl_setStep_not_mem {interp : String → UserMetadata} {k : String} :
    ∀ (ids : List String) (acc : Obj UserMetadata), k ∉ ids →
      jsGet k (ids.foldl
        (fun m id => if id ≠ "" then jsSet id (interp id) m else m) acc) = jsGet k acc := by
  intro ids
  induction ids with
  | nil => intro acc _; rfl
  | cons a rest ih =>
    intro acc h
    simp only [List.mem_cons, not_or] at h
    simp only [List.foldl_cons]
    rw [ih _ h.2]
    by_cases ha : a = ""
    · simp [ha]
    · simp only [if_pos (by exact ha : a ≠ "")]
      exact jsGet_jsSet_ne _ _ (Ne.symm h.1)

theorem fetchAll_lookup (idguids : List String) (respOf : String → FetchResponse)
    (id : String) (hmem : id ∈ idguids) (hne : id ≠ "") :
    jsGet id (fetchAllMetadataModel idguids respOf) =
      some (fetchUserMetadataModel id (respOf id)) := by
  rw [fetchAll_eq_foldl]
  have haux : ∀ (ids : List String) (acc : Obj UserMetadata), id ∈ ids →
      jsGet id (ids.foldl
        (fun m i => if i ≠ "" then jsSet i (fetchUserMetadataModel i (respOf i)) m else m) acc) =
        some (fetchUserMetadataModel id (respOf id)) := by
    intro ids
    induction ids with
    | nil => intro acc h; simp at h
    | cons a rest ih =>
      intro acc h
      by_cases hmem2 : id ∈ rest
      · simp only [List.foldl_cons]
        exact ih _ hmem2
      · have ha : a = id := by
          rcases List.mem_cons.mp h with h | h
          · exact h.symm
          · exact absurd h hmem2
        subst ha
        simp only [List.foldl_cons, if_pos hne]
        rw [foldl_setStep_not_mem rest _ hmem2]
        exact jsGet_jsSet_self _ _ _
  exact haux idguids [] hmem

theorem fetchUserMetadata_rejected (idguid : String) (resp : FetchResponse)
    (h : rejectedResponse resp) :
    fetchUserMetadataModel idguid resp = emptySubjectMetadata idguid := by
  cases resp with
  | transportError => rfl
  | response status contentType parsed =>
    unfold fetchUserMetadataModel
    dsimp only
    by_cases h1 : status < 200 ∨ 300 ≤ status
    · rw [if_pos h1]
    · rw [if_neg h1]
      unfold rejectedResponse at h
      rcases h with h | h | h | h
      · exact absurd (Or.inl h) h1
      · exact absurd (Or.inr h) h1
      · rw [if_pos (by simp [h])]
      · cases parsed with
        | none => simp
        | some d =>
          simp only at h
          by_cases h2 : strContains (sLower contentType) "application/json"
          · simp [h2, h]
          · simp [h2]

theorem fetchUserMetadata_email_mem (idguid : String) (resp : FetchResponse)
    (l : List String) (h : (fetchUserMetadataModel idguid resp).emails = some l) :
    (fetchUserMetadataModel idguid resp).email ∈ l := by
  cases resp with
  | transportError => simp [fetchUserMetadataModel, emptySubjectMetadata] at h
  | response status contentType parsed =>
    cases parsed with
    | none =>
      unfold fetchUserMetadataModel at h
      dsimp only at h
      split_ifs at h <;> simp [emptySubjectMetadata] at h
    | some d =>
      unfold fetchUserMetadataModel at h ⊢
      dsimp only at h ⊢
      by_cases h1 : status < 200 ∨ 300 ≤ status
      · rw [if_pos h1] at h
        simp [emptySubjectMetadata] at h
      · rw [if_neg h1] at h ⊢
        by_cases h2 : strContains (sLower contentType) "application/json"
        · rw [if_neg (by simp [h2])] at h ⊢
          by_cases h3 : d.IDGUID = ""
          · rw [if_pos h3] at h
            simp [emptySubjectMetadata] at h
          · rw [if_neg h3] at h ⊢
            dsimp only at h ⊢
            by_cases hlen : 0 < (collectedEmailsOf d).length
            · rw [if_pos hlen] at h
              injection h with h
              cases hc : collectedEmailsOf d with
              | nil => rw [hc] at hlen; simp at hlen
              | cons c t =>
                rw [← h]
                unfold jsDedup jsDedupAux
                rw [hc]
                simp
            · rw [if_neg hlen] at h
              simp at h
        · rw [if_pos (by simpa using h2)] at h
          simp [emptySubjectMetadata] at h

theorem extractIdGuids_ne_empty (data : List DataRow) (columnName : String) :
    "" ∉ extractIdGuids data columnName := by
  have haux : ∀ (rows : List DataRow) (acc : List String), "" ∉ acc →
      "" ∉ rows.foldl
        (fun acc row =>
          match jsGet columnName row with
          | some v =>
            if jsTruthy v then
              (if sTrim (jsToString v) ≠ "" then
                (if acc.contains (sTrim (jsToString v)) then acc
                 else acc ++ [sTrim (jsToString v)])
               else acc)
            else acc
          | none => acc)
        acc := by
    intro rows
    induction rows with
    | nil => intro acc h; exact h
    | cons row rest ih =>
      intro acc hacc
      simp only [List.foldl_cons]
      apply ih
      cases hv : jsGet columnName row with
      | none => simpa [hv] using hacc
      | some v =>
        simp only [hv]
        split_ifs with ht hs hc
        · exact hacc
        · simp only [List.mem_append, List.mem_singleton]
          rintro (hcon | hcon)
          · exact hacc hcon
          · exact hs hcon.symm
        · exact hacc
        · exact hacc
  exact haux data [] (by simp)

/-- Claim C8: per-subject fetching is total and fail-absorbing — every
rejected response (transport failure, status outside `[200, 300)`,
content type without `application/json`, unparsable body, or missing
truthy identifier field) yields the empty-metadata sentinel, never an
exception (the interpretation is a total function) — and the resolver's
output mapping has an entry for every requested identifier. Subject
identifiers are non-empty by construction (`extractIdGuids` only emits
trimmed non-empty values, third conjunct), which the mapping conjunct
assumes because recording results skips a falsy identifier. -/
theorem fetch_total_coverage :
    (∀ (idguid : String) (resp : FetchResponse), rejectedResponse resp →
      fetchUserMetadataModel idguid resp = emptySubjectMetadata idguid) ∧
    (∀ (idguids : List String) (respOf : String → FetchResponse) (id : String),
      id ∈ idguids → id ≠ "" →
      jsGet id (fetchAllMetadataModel idguids respOf) =
        some (fetchUserMetadataModel id (respOf id))) ∧
    (∀ (data : List DataRow) (columnName : String), "" ∉ extractIdGuids data columnName) :=
  ⟨fetchUserMetadata_rejected, fetchAll_lookup, extractIdGuids_ne_empty⟩

/-- Witness for the C8 theorem: a rejected concrete response maps to the
sentinel, and a concrete two-identifier resolution contains an entry for
each identifier. -/
theorem fetch_total_coverage_witness :
    rejectedResponse FetchResponse.transportError ∧
    fetchUserMetadataModel "u1" FetchResponse.transportError = emptySubjectMetadata "u1" ∧
    ("u1" ∈ ["u1", "u2"] ∧ ("u1" : String) ≠ "") ∧
    jsGet "u1" (fetchAllMetadataModel ["u1", "u2"] (fun _ => FetchResponse.transportError)) =
      some (fetchUserMetadataModel "u1" FetchResponse.transportError) :=
  ⟨trivial,
    fetch_total_coverage.1 "u1" FetchResponse.transportError trivial,
    ⟨by decide, by decide⟩,
    fetch_total_coverage.2.1 ["u1", "u2"] (fun _ => FetchResponse.transportError) "u1"
      (by decide) (by decide)⟩

/-- Claim C7 (counterexample): for the caller-supplied identifier `"abc"`
and a usable response carrying `ExternalCode = "EXT-1"`, the `user_id`
recorded in the returned metadata entry is the server code `"EXT-1"`, not
the caller-supplied identifier. -/
theorem subject_id_field_counterexample :
    (fetchUserMetadataModel "abc"
        (FetchResponse.response 200 "application/json"
          (some { IDGUID := "g-1", ExternalCode := some "EXT-1",
                  Email := some "e@x.com" }))).user_id = "EXT-1" ∧
    (fetchUserMetadataModel "abc"
        (FetchResponse.response 200 "application/json"
          (some { IDGUID := "g-1", ExternalCode := some "EXT-1",
                  Email := some "e@x.com" }))).user_id ≠ "abc" := by
  refine ⟨by decide, by decide⟩

/-- Claim C7 (amended): the output mapping is keyed by the caller-supplied
identifier, so a lookup by the original (non-empty) identifier always
succeeds; the `user_id` field inside the entry equals the caller-supplied
identifier for every unusable response, while for every successfully
parsed response (status in `[200, 300)`, JSON content type, truthy
identifier field) it is exactly the server's `ExternalCode`, else
`UserName`, when non-empty, with the caller-supplied identifier only as
fallback (the `||` chain). -/
theorem lookup_by_original_id :
    (∀ (idguids : List String) (respOf : String → FetchResponse) (id : String),
      id ∈ idguids → id ≠ "" →
      ∃ entry, jsGet id (fetchAllMetadataModel idguids respOf) = some entry ∧
        entry = fetchUserMetadataModel id (respOf id)) ∧
    (∀ (idguid : String) (resp : FetchResponse), rejectedResponse resp →
      (fetchUserMetadataModel idguid resp).user_id = idguid) ∧
    (∀ (idguid : String) (status : Nat) (ct : String) (d : ApiUserMetadata),
      200 ≤ status → status < 300 →
      strContains (sLower ct) "application/json" = true →
      d.IDGUID ≠ "" →
      (fetchUserMetadataModel idguid (.response status ct (some d))).user_id =
        jsOrStr d.ExternalCode (jsOrStr d.UserName idguid)) := by
  refine ⟨?_, ?_, ?_⟩
  · intro idguids respOf id hmem hne
    exact ⟨_, fetchAll_lookup idguids respOf id hmem hne, rfl⟩
  · intro idguid resp h
    rw [fetchUserMetadata_rejected idguid resp h]
    rfl
  · intro idguid status ct d hlo hhi hct hid
    unfold fetchUserMetadataModel
    dsimp only
    rw [if_neg (by omega : ¬(status < 200 ∨ 300 ≤ status))]
    rw [if_neg (by simp [hct])]
    rw [if_neg hid]

/-- Witness for the amended C7 theorem at a concrete resolution, a
concrete unusable response, and a concrete successfully parsed response
whose recorded `user_id` is the server code. -/
theorem lookup_by_original_id_witness :
    (("abc" ∈ ["abc"]) ∧ ("abc" : String) ≠ "") ∧
    (∃ entry, jsGet "abc" (fetchAllMetadataModel ["abc"]
        (fun _ => FetchResponse.response 200 "application/json"
          (some { IDGUID := "g-1", ExternalCode := some "EXT-1",
                  Email := some "e@x.com" }))) = some entry ∧
      entry = fetchUserMetadataModel "abc"
        (FetchResponse.response 200 "application/json"
          (some { IDGUID := "g-1", ExternalCode := some "EXT-1",
                  Email := some "e@x.com" }))) ∧
    (fetchUserMetadataModel "zz" FetchResponse.transportError).user_id = "zz" ∧
    (strContains (sLower "application/json") "application/json" = true ∧
      ("g-1" : String) ≠ "" ∧
      (fetchUserMetadataModel "abc"
        (FetchResponse.response 200 "application/json"
          (some { IDGUID := "g-1", ExternalCode := some "EXT-1",
                  Email := some "e@x.com" }))).user_id =
        jsOrStr (some "EXT-1") (jsOrStr none "abc")) :=
  ⟨⟨by decide, by decide⟩,
    lookup_by_original_id.1 ["abc"]
      (fun _ => FetchResponse.response 200 "application/json"
        (some { IDGUID := "g-1", ExternalCode := some "EXT-1",
                Email := some "e@x.com" })) "abc" (by decide) (by decide),
    lookup_by_original_id.2.1 "zz" FetchResponse.transportError trivial,
    by decide, by decide,
    lookup_by_original_id.2.2 "abc" 200 "application/json"
      { IDGUID := "g-1", ExternalCode := some "EXT-1", Email := some "e@x.com" }
      (by decide) (by decide) (by decide) (by decide)⟩

/-- Claim C9: the pipeline's artifact content — and therefore its hash —
is a function of the input rows, the resolved metadata, the settings and
the output format alone; two runs differing only in their wall-clock stage
durations produce the same artifact content and the same hash (or fail
identically). -/
theorem pipeline_deterministic_hash (sourceData : List DataRow)
    (metadata : String → Option UserMetadata) (emailDomainKeywords : List String)
    (companyName : String) (fmt : OutputFormat) (xenc : List DataRow → String)
    (sha : String → String) (t₁ t₂ : List Int) :
    runArtifact (runPipelineModel sourceData metadata emailDomainKeywords companyName
        fmt xenc sha t₁) =
      runArtifact (runPipelineModel sourceData metadata emailDomainKeywords companyName
        fmt xenc sha t₂) := by
  unfold runPipelineModel
  by_cases h : (applyTransformRules sourceData metadata (some emailDomainKeywords)
      (some companyName)).isEmpty <;>
    simp [h, runArtifact]

/-- Claim C1: whenever some requested identifier's resolved metadata has an
empty canonical email and an empty (or absent) alternate-email list, the
workflow returns `ok = false`, writes the coverage diagnostic (the three
count lines, a blank line and a header, then one missing identifier per
line) and does not write the primary output artifact. -/
theorem coverage_gate_fail_closed (idguids : List String) (metadata : Obj UserMetadata)
    (sourceData : List DataRow) (emailDomainKeywords : List String) (companyName : String)
    (fmt : OutputFormat) (xenc : List DataRow → String) (sha : String → String)
    (stageDurations : List Int)
    (hbad : ∃ id ∈ idguids, ∃ m, jsGet id metadata = some m ∧ m.email = "" ∧
      (m.emails = none ∨ m.emails = some [])) :
    (workflowRunModel idguids metadata sourceData emailDomainKeywords companyName
        fmt xenc sha stageDurations).ok = false ∧
    (workflowRunModel idguids metadata sourceData emailDomainKeywords companyName
        fmt xenc sha stageDurations).primaryOutput = none ∧
    (workflowRunModel idguids metadata sourceData emailDomainKeywords companyName
        fmt xenc sha stageDurations).diagnostic =
      some (coverageDiagLines idguids (coverageMissingIds idguids metadata)) ∧
    coverageMissingIds idguids metadata ≠ [] := by
  obtain ⟨id, hmem, m, hget, hemail, halts⟩ := hbad
  have hfail : hasAnyEmail (jsGet id metadata) = false := by
    rw [hget]
    unfold hasAnyEmail
    rcases halts with h | h <;> simp [hemail, h]
  have hmiss : id ∈ coverageMissingIds idguids metadata := by
    unfold coverageMissingIds
    rw [List.mem_filter]
    exact ⟨hmem, by simp [hfail]⟩
  have hne : coverageMissingIds idguids metadata ≠ [] :=
    List.ne_nil_of_mem hmiss
  have hlen : 0 < (coverageMissingIds idguids metadata).length :=
    List.length_pos.mpr hne
  unfold workflowRunModel
  rw [if_pos hlen]
  exact ⟨rfl, rfl, rfl, hne⟩

/-- Witness for the C1 theorem: one requested identifier whose entry is the
empty-metadata sentinel. -/
theorem coverage_gate_fail_closed_witness :
    (∃ id ∈ ["u1"], ∃ m, jsGet id ([("u1", emptySubjectMetadata "u1")] : Obj UserMetadata) =
        some m ∧ m.email = "" ∧ (m.emails = none ∨ m.emails = some [])) ∧
    (workflowRunModel ["u1"] [("u1", emptySubjectMetadata "u1")]
        [[("User Name", JValue.vStr "u1")]] [] "MyCo" OutputFormat.csv
        (fun _ => "") (fun s => s) []).ok = false ∧
    (workflowRunModel ["u1"] [("u1", emptySubjectMetadata "u1")]
        [[("User Name", JValue.vStr "u1")]] [] "MyCo" OutputFormat.csv
        (fun _ => "") (fun s => s) []).primaryOutput = none ∧
    (workflowRunModel ["u1"] [("u1", emptySubjectMetadata "u1")]
        [[("User Name", JValue.vStr "u1")]] [] "MyCo" OutputFormat.csv
        (fun _ => "") (fun s => s) []).diagnostic =
      some (coverageDiagLines ["u1"]
        (coverageMissingIds ["u1"] [("u1", emptySubjectMetadata "u1")])) :=
  ⟨⟨"u1", by decide, emptySubjectMetadata "u1", by decide, rfl, Or.inl rfl⟩,
    (coverage_gate_fail_closed ["u1"] [("u1", emptySubjectMetadata "u1")]
      [[("User Name", JValue.vStr "u1")]] [] "MyCo" OutputFormat.csv
      (fun _ => "") (fun s => s) []
      ⟨"u1", by decide, emptySubjectMetadata "u1", by decide, rfl, Or.inl rfl⟩).1,
    (coverage_gate_fail_closed ["u1"] [("u1", emptySubjectMetadata "u1")]
      [[("User Name", JValue.vStr "u1")]] [] "MyCo" OutputFormat.csv
      (fun _ => "") (fun s => s) []
      ⟨"u1", by decide, emptySubjectMetadata "u1", by decide, rfl, Or.inl rfl⟩).2.1,
    (coverage_gate_fail_closed ["u1"] [("u1", emptySubjectMetadata "u1")]
      [[("User Name", JValue.vStr "u1")]] [] "MyCo" OutputFormat.csv
      (fun _ => "") (fun s => s) []
      ⟨"u1", by decide, emptySubjectMetadata "u1", by decide, rfl, Or.inl rfl⟩).2.2.1⟩

end FlowForge
